import Mathlib

/-
  Verification development for the catalog & order synchronization core of a
  small ordering application (React/TypeScript, Supabase backend).

  The definitions below are a shallow embedding of the source:
    - src/types.ts                      (data model)
    - src/contexts/AppContext.tsx       (catalog store, order ledger, stock
                                         reconciliation, bulk merge)
    - src/screens/MainScreen.tsx        (order submission)
    - src/screens/ProductAdminScreen.tsx(CSV export / import)
    - src/utils/exportUtils.ts          (delimited-text writer)

  Numbers are modelled as rationals (the source uses JS numbers), strings as
  Lean strings, optional/undefined fields as Option.  Asynchronous persistence
  calls are modelled by explicit success flags and an explicit list of issued
  database writes; fresh identifier generation is modelled by an explicitly
  supplied generator (the source uses timestamps and randomness).
-/

/-! ## JS numeric string parsing (models parseFloat / parseInt, radix 10).
    Exponent notation and special values (Infinity, hex) are not modelled;
    no input produced or consumed by the flows verified here uses them. -/

def digitsToNat (ds : List Nat) : Nat :=
  ds.foldl (fun a d => a * 10 + d) 0

def takeDigits : List Char → List Nat × List Char
  | [] => ([], [])
  | c :: cs =>
    if c.isDigit then
      let p := takeDigits cs
      ((c.toNat - 48) :: p.1, p.2)
    else ([], c :: cs)

def splitSign : List Char → Bool × List Char
  | '-' :: t => (true, t)
  | '+' :: t => (false, t)
  | cs => (false, cs)

def jsParseInt (s : String) : Option Int :=
  let p := splitSign s.data
  let d := takeDigits p.2
  if d.1.isEmpty then none
  else some (if p.1 then -(digitsToNat d.1 : Int) else (digitsToNat d.1 : Int))

def jsParseFloat (s : String) : Option ℚ :=
  let p := splitSign s.data
  let d := takeDigits p.2
  let f : List Nat :=
    match d.2 with
    | '.' :: t => (takeDigits t).1
    | _ => []
  if d.1.isEmpty ∧ f.isEmpty then none
  else
    let mag : ℚ := (digitsToNat d.1 : ℚ) + (digitsToNat f : ℚ) / ((10 : ℚ) ^ f.length)
    some (if p.1 then -mag else mag)

/-! ## Rendering a decimal rational as a JS-style numeric string
    (models the number-to-string conversion applied by the export writer).
    The digit string is computed from the reduced numerator and denominator
    so that it is kernel-computable. -/

def padZeros (s : String) (k : Nat) : String :=
  if s.length < k then String.mk (List.replicate (k - s.length) '0') ++ s else s

def decExp (q : ℚ) : Option Nat :=
  (List.range 400).find? (fun k => 10 ^ k % q.den = 0)

def renderDecimal (q : ℚ) : String :=
  match decExp q with
  | some 0 => (if q.num < 0 then "-" else "") ++ toString q.num.natAbs
  | some k =>
    let m := q.num.natAbs * (10 ^ k / q.den)
    (if q.num < 0 then "-" else "") ++ toString (m / 10 ^ k) ++ "." ++
      padZeros (toString (m % 10 ^ k)) k
  | none => ""

/-! ## JS string trimming and lowercasing
    (kernel-computable models of String.prototype.trim, which strips
    whitespace from both ends, and of toLowerCase restricted to ASCII). -/

def isWsChar (c : Char) : Bool :=
  c = ' ' || c = '\t' || c = '\n' || c = '\r'

def jsTrim (s : String) : String :=
  ⟨(((s.data.dropWhile isWsChar).reverse.dropWhile isWsChar).reverse : List Char)⟩

def asciiLower (c : Char) : Char :=
  if 'A' ≤ c ∧ c ≤ 'Z' then Char.ofNat (c.toNat + 32) else c

def jsToLower (s : String) : String :=
  ⟨s.data.map asciiLower⟩

/-! ## Data model (src/types.ts) -/

inductive OrderStatus
  | pending
  | preparing
  | shipped
  | delivered
  | cancelled
deriving DecidableEq

inductive QuantityType
  | unit
  | kg
deriving DecidableEq

structure Product where
  id : String
  name : String
  description : Option String := none
  price : Option ℚ := none
  imageUrl : String := ""
  barcode : Option String := none
  quantityType : Option QuantityType := none
  stock : Option ℚ := none
  isVisible : Option Bool := none
deriving DecidableEq

structure OrderItemType where
  product : Product
  quantity : ℚ
deriving DecidableEq

structure OrderType where
  id : String
  storeName : String
  userEmail : String
  items : List OrderItemType
  orderDate : String
  status : OrderStatus
  totalAmount : Option ℚ := none
deriving DecidableEq

structure AppState where
  orders : List OrderType
  products : List Product
deriving DecidableEq

/-- A database write issued to the backing store. -/
inductive DbWrite
  | orderStatus (orderId : String) (status : OrderStatus)
  | productStock (productId : String) (stock : Option ℚ)
deriving DecidableEq

/-! ## Product catalog store (src/contexts/AppContext.tsx) -/

/-- Models the isVisible normalization applied when rows come back from the
    backing store: undefined/null becomes true. -/
def normVis (p : Product) : Product :=
  { p with isVisible := some (p.isVisible.getD true) }

def getProductById (products : List Product) (productId : String) : Option Product :=
  products.find? (fun p => p.id == productId)

/-- Input to addProduct: a product without an id (TS Omit of Product, id). -/
structure ProductData where
  name : String
  description : Option String := none
  price : Option ℚ := none
  imageUrl : String := ""
  barcode : Option String := none
  quantityType : Option QuantityType := none
  stock : Option ℚ := none
  isVisible : Option Bool := none
deriving DecidableEq

/-- addProduct: assigns the generated id, defaults isVisible to true when
    unset, inserts into the store; on persistence failure returns none and
    leaves the catalog unchanged. -/
def addProduct (products : List Product) (newId : String) (d : ProductData)
    (persistOk : Bool) : Option Product × List Product :=
  let newProduct : Product :=
    { id := newId, name := d.name, description := d.description,
      price := d.price, imageUrl := d.imageUrl, barcode := d.barcode,
      quantityType := d.quantityType, stock := d.stock,
      isVisible := some (d.isVisible.getD true) }
  if persistOk then (some (normVis newProduct), products ++ [normVis newProduct])
  else (none, products)

/-- A patch of optional product fields (TS Partial of Product).  Also the
    row shape fed to bulk merge and produced by the import parser. -/
structure PartialProduct where
  id : Option String := none
  name : Option String := none
  description : Option String := none
  price : Option ℚ := none
  imageUrl : Option String := none
  barcode : Option String := none
  quantityType : Option QuantityType := none
  stock : Option ℚ := none
  isVisible : Option Bool := none
deriving DecidableEq

/-- Field-wise merge of a patch onto an existing record (the backing store's
    update-by-id semantics: supplied fields replace, absent fields persist). -/
def applyPatch (p : Product) (patch : PartialProduct) : Product :=
  { id := p.id,
    name := patch.name.getD p.name,
    description := patch.description.or p.description,
    price := patch.price.or p.price,
    imageUrl := patch.imageUrl.getD p.imageUrl,
    barcode := patch.barcode.or p.barcode,
    quantityType := patch.quantityType.or p.quantityType,
    stock := patch.stock.or p.stock,
    isVisible := patch.isVisible.or p.isVisible }

/-- updateProduct: merges the patch onto the stored record; a miss is a
    silent no-op (the single-row update reports no matching row). -/
def updateProduct (products : List Product) (productId : String)
    (patch : PartialProduct) : List Product :=
  match products.find? (fun p => p.id == productId) with
  | none => products
  | some existing =>
    let data := applyPatch existing patch
    products.map (fun p => if p.id == productId then normVis data else p)

/-- Models JS `x || dflt` on a string-or-undefined value: undefined and the
    empty string both fall back to the default. -/
def jsOrElse (o : Option String) (dflt : String) : String :=
  match o with
  | some s => if s = "" then dflt else s
  | none => dflt

/-- Building the full product persisted for one bulk-merge row: every field
    left unset by the row receives its documented default. -/
def buildFullProduct (newId : String) (r : PartialProduct) : Product :=
  { id := jsOrElse r.id newId,
    name := jsOrElse r.name "Unnamed Product",
    description := some (r.description.getD ""),
    price := some (r.price.getD 0),
    imageUrl := jsOrElse r.imageUrl "https://picsum.photos/seed/defaultproduct/200/200",
    barcode := some (r.barcode.getD ""),
    quantityType := some (r.quantityType.getD .unit),
    stock := some (r.stock.getD 0),
    isVisible := some (r.isVisible.getD true) }

/-- True when the row carries an id that is neither undefined nor empty,
    so that bulk merge will not consume a freshly generated id for it. -/
def usesFreshId (r : PartialProduct) : Bool :=
  match r.id with
  | some s => s == ""
  | none => true

/-- Maps the bulk-merge rows to full products, threading the fresh-id
    counter: a generated id is consumed only when the row lacks one. -/
def buildProductsAux (gen : Nat → String) :
    List PartialProduct → Nat → List Product × Nat
  | [], n => ([], n)
  | r :: rs, n =>
    let p := buildFullProduct (gen n) r
    let n' := if usesFreshId r then n + 1 else n
    let rest := buildProductsAux gen rs n'
    (p :: rest.1, rest.2)

/-- Upsert-with-conflict-key id: an existing id is replaced in place,
    a new id is appended. -/
def upsertOne (c : List Product) (p : Product) : List Product :=
  if c.any (fun q => q.id == p.id) then
    c.map (fun q => if q.id == p.id then p else q)
  else c ++ [p]

/-- bulkAddProducts: builds full products from the rows (defaulting unset
    fields), upserts them in input order, then reloads the catalog applying
    the isVisible normalization. -/
def bulkAddProducts (gen : Nat → String) (st : List Product × Nat)
    (rows : List PartialProduct) : List Product × Nat :=
  let built := buildProductsAux gen rows st.2
  ((built.1.foldl upsertOne st.1).map normVis, built.2)

/-! ## Order ledger (src/contexts/AppContext.tsx, src/screens/MainScreen.tsx) -/

structure NewOrderData where
  storeName : String
  userEmail : String
  items : List OrderItemType
  totalAmount : Option ℚ := none
deriving DecidableEq

/-- addOrder: stamps the generated id and timestamp, sets status Pending,
    persists and appends; on persistence failure returns none and leaves
    the ledger unchanged. -/
def addOrder (orders : List OrderType) (newId now : String) (d : NewOrderData)
    (persistOk : Bool) : Option OrderType × List OrderType :=
  let fullOrder : OrderType :=
    { id := newId, storeName := d.storeName, userEmail := d.userEmail,
      items := d.items, orderDate := now, status := .pending,
      totalAmount := d.totalAmount }
  if persistOk then (some fullOrder, orders ++ [fullOrder]) else (none, orders)

def calculateTotal (items : List OrderItemType) : ℚ :=
  items.foldl (fun total item => total + (item.product.price.getD 0) * item.quantity) 0

/-- The caller-side submit handler: rejects an empty item sequence before
    calling addOrder, and precomputes the total. -/
def handleSubmitOrder (orders : List OrderType) (newId now : String)
    (storeName userEmail : String) (items : List OrderItemType)
    (persistOk : Bool) : Option OrderType × List OrderType :=
  if items.isEmpty then (none, orders)
  else addOrder orders newId now
    { storeName := storeName, userEmail := userEmail, items := items,
      totalAmount := some (calculateTotal items) } persistOk

/-! ## Stock reconciliation (updateOrderStatus in src/contexts/AppContext.tsx) -/

/-- The per-item updated product copies accumulated during delivery
    reconciliation: for each item whose product is found and has numeric
    stock, a copy with stock clamped at zero after the decrement. -/
def updatedProductsLocally (products : List Product)
    (items : List OrderItemType) : List Product :=
  items.filterMap (fun item =>
    match products.find? (fun p => p.id == item.product.id) with
    | some product =>
      match product.stock with
      | some st => some { product with stock := some (max 0 (st - item.quantity)) }
      | none => none
    | none => none)

/-- Applying the accumulated updates to the in-memory catalog: each product
    is replaced by the first updated copy carrying its id, if any. -/
def applyStockAdjustment (products upd : List Product) : List Product :=
  products.map (fun p => (upd.find? (fun u => u.id == p.id)).getD p)

structure UpdateOutcome where
  state : AppState
  writes : List DbWrite
  notFound : Bool
deriving DecidableEq

/-- updateOrderStatus: a miss on the order id is a hard failure with no
    writes; otherwise the status write is issued and, on a transition into
    Delivered from a non-Delivered status, the per-item stock writes are
    issued and mirrored into the in-memory catalog. -/
def updateOrderStatus (s : AppState) (orderId : String)
    (newStatus : OrderStatus) (statusWriteOk stockWritesOk : Bool) :
    UpdateOutcome :=
  match s.orders.find? (fun o => o.id == orderId) with
  | none => ⟨s, [], true⟩
  | some orderToUpdate =>
    let statusWrite := DbWrite.orderStatus orderId newStatus
    if statusWriteOk then
      let orders' := s.orders.map
        (fun o => if o.id == orderId then { o with status := newStatus } else o)
      if newStatus = .delivered ∧ orderToUpdate.status ≠ .delivered then
        let upd := updatedProductsLocally s.products orderToUpdate.items
        let stockWrites := upd.map (fun u => DbWrite.productStock u.id u.stock)
        let products' :=
          if stockWritesOk then applyStockAdjustment s.products upd else s.products
        ⟨⟨orders', products'⟩, statusWrite :: stockWrites, false⟩
      else
        ⟨⟨orders', s.products⟩, [statusWrite], false⟩
    else ⟨s, [statusWrite], false⟩

/-! ## Delimited-text (CSV) writer and reader
    (models Papa.unparse / Papa.parse as configured by the source:
    the writer joins fields with commas and records with CRLF, quoting a
    field only when it contains a delimiter, quote or line break; the
    reader is a quote-aware character machine and, as configured with
    skipEmptyLines, drops records that consist of a single empty field). -/

def escapeQuotes (s : String) : String :=
  s.data.foldl (fun acc c => if c = '"' then acc ++ "\"\"" else acc.push c) ""

def needsQuote (s : String) : Bool :=
  s.data.any (fun c => c = ',' || c = '"' || c = '\n' || c = '\r')

def encodeField (s : String) : String :=
  if needsQuote s then "\"" ++ escapeQuotes s ++ "\"" else s

def csvUnparse (rows : List (List String)) : String :=
  String.intercalate "\r\n" (rows.map (fun r => String.intercalate "," (r.map encodeField)))

structure CsvState where
  field : String
  row : List String
  rows : List (List String)
  inQ : Bool
  afterQ : Bool
  afterCR : Bool

def csvInit : CsvState := ⟨"", [], [], false, false, false⟩

def csvEndField (st : CsvState) : CsvState :=
  { st with field := "", row := st.row ++ [st.field] }

def csvEndRow (st : CsvState) : CsvState :=
  let st' := csvEndField st
  { st' with row := [], rows := st'.rows ++ [st'.row] }

def csvPlainChar (st : CsvState) (c : Char) : CsvState :=
  if c = '"' then { st with inQ := true, afterCR := false }
  else if c = ',' then { csvEndField st with afterCR := false }
  else if c = '\r' then { csvEndRow st with afterCR := true }
  else if c = '\n' then
    if st.afterCR then { st with afterCR := false }
    else { csvEndRow st with afterCR := false }
  else { st with field := st.field.push c, afterCR := false }

def csvStep (st : CsvState) (c : Char) : CsvState :=
  if st.inQ then
    if st.afterQ then
      if c = '"' then { st with field := st.field.push '"', afterQ := false }
      else csvPlainChar { st with inQ := false, afterQ := false } c
    else
      if c = '"' then { st with afterQ := true }
      else { st with field := st.field.push c }
  else csvPlainChar st c

def csvParse (s : String) : List (List String) :=
  let st := s.data.foldl csvStep csvInit
  ((csvEndRow st).rows).filter (fun r => r ≠ [""])

/-! ## CSV import (handleImportChange in src/screens/ProductAdminScreen.tsx) -/

/-- A raw header-keyed row as delivered by the CSV reader: each recognized
    column is either a string cell or absent. -/
structure RawRow where
  id : Option String := none
  name : Option String := none
  description : Option String := none
  price : Option String := none
  imageUrl : Option String := none
  barcode : Option String := none
  quantityType : Option String := none
  stock : Option String := none
  isVisible : Option String := none
deriving DecidableEq

def lookupCol (headers row : List String) (colName : String) : Option String :=
  match headers.findIdx? (fun h => h == colName) with
  | some i => row.get? i
  | none => none

def toRawRow (headers row : List String) : RawRow :=
  { id := lookupCol headers row "id",
    name := lookupCol headers row "name",
    description := lookupCol headers row "description",
    price := lookupCol headers row "price",
    imageUrl := lookupCol headers row "imageUrl",
    barcode := lookupCol headers row "barcode",
    quantityType := lookupCol headers row "quantityType",
    stock := lookupCol headers row "stock",
    isVisible := lookupCol headers row "isVisible" }

/-- Models `row.f ? String(row.f).trim() : undefined` followed by
    `f || undefined`: a truthy cell is trimmed, and an empty result is
    dropped. -/
def importStrField (cell : Option String) : Option String :=
  match cell with
  | some s => if s ≠ "" then (if jsTrim s = "" then none else some (jsTrim s)) else none
  | none => none

/-- Maps one raw row into a PartialProduct exactly as the import handler
    does: strings trimmed with empties dropped, price via parseFloat and
    stock via parseInt with absent/unparseable fields omitted,
    quantityType defaulted to unit unless exactly kg (case-insensitive),
    isVisible read from true/1/false/0 tokens and true otherwise. -/
def parseImportRow (row : RawRow) : PartialProduct :=
  let priceString := (row.price.map jsTrim).getD ""
  let stockString := (row.stock.map jsTrim).getD ""
  let rawQuantityType :=
    match row.quantityType with
    | some s => if s ≠ "" then jsToLower (jsTrim s) else "unit"
    | none => "unit"
  let isVisibleValue :=
    match row.isVisible with
    | some s =>
      let t := jsToLower (jsTrim s)
      if t = "true" ∨ t = "1" then true
      else if t = "false" ∨ t = "0" then false
      else true
    | none => true
  { id := importStrField row.id,
    name := importStrField row.name,
    description := importStrField row.description,
    price := if priceString ≠ "" then jsParseFloat priceString else none,
    imageUrl := importStrField row.imageUrl,
    barcode := importStrField row.barcode,
    quantityType := some (if rawQuantityType = "kg" then .kg else .unit),
    stock := if stockString ≠ "" then (jsParseInt stockString).map (fun i => (i : ℚ)) else none,
    isVisible := some isVisibleValue }

/-- The filter applied before the merge step: a mapped row is kept when some
    field value is defined and, for string values, nonempty after trimming. -/
def keepRow (p : PartialProduct) : Bool :=
  (match p.id with | some s => jsTrim s ≠ "" | none => false) ||
  (match p.name with | some s => jsTrim s ≠ "" | none => false) ||
  (match p.description with | some s => jsTrim s ≠ "" | none => false) ||
  p.price.isSome ||
  (match p.imageUrl with | some s => jsTrim s ≠ "" | none => false) ||
  (match p.barcode with | some s => jsTrim s ≠ "" | none => false) ||
  (match p.quantityType with | some _ => true | none => false) ||
  p.stock.isSome ||
  (match p.isVisible with | some _ => true | none => false)

/-- The complete import flow: read the delimited text with a header row,
    map the data rows, filter, and bulk-merge when any row survives. -/
def importProductsFlow (gen : Nat → String) (st : List Product × Nat)
    (text : String) : List Product × Nat :=
  match csvParse text with
  | [] => st
  | headers :: dataRows =>
    let imported := (dataRows.map (fun r => parseImportRow (toRawRow headers r))).filter keepRow
    if 0 < imported.length then bulkAddProducts gen st imported else st

/-! ## CSV export (handleExport in src/screens/ProductAdminScreen.tsx,
    exportToCsv in src/utils/exportUtils.ts) -/

def renderQuantityType : QuantityType → String
  | .unit => "unit"
  | .kg => "kg"

def renderBool (b : Bool) : String := if b then "true" else "false"

def renderOptNumCell (q : Option ℚ) : String :=
  match q with
  | some v => renderDecimal v
  | none => ""

/-- The per-product export record, in the column order of the source object
    literal: id, name, description, price, imageUrl, barcode, quantityType,
    stock, isVisible; absent optionals become empty cells or defaults. -/
def exportFields (p : Product) : List String :=
  [p.id, p.name, p.description.getD "", renderOptNumCell p.price, p.imageUrl,
   p.barcode.getD "", renderQuantityType (p.quantityType.getD .unit),
   renderOptNumCell p.stock, renderBool (p.isVisible.getD true)]

/-- The CSV export as actually produced: exportToCsv is called without a
    header list, so the writer is configured with header set to false and
    the output carries no header row. -/
def exportProductsCsv (products : List Product) : String :=
  csvUnparse (products.map exportFields)

/-! ## General helper lemmas -/

theorem find_map_of_pred_eq {α β : Type} (f : α → β) (p : β → Bool) (q : α → Bool)
    (l : List α) (h : ∀ a, p (f a) = q a) :
    (l.map f).find? p = (l.find? q).map f := by
  induction l with
  | nil => rfl
  | cons a tl ih =>
    by_cases hq : q a = true
    · rw [List.map_cons, List.find?_cons_of_pos _ (by rw [h a, hq]),
        List.find?_cons_of_pos _ hq, Option.map_some']
    · have hq' : q a = false := by revert hq; cases q a <;> simp
      rw [List.map_cons, List.find?_cons_of_neg _ (by rw [h a, hq']; simp),
        List.find?_cons_of_neg _ (by rw [hq']; simp), ih]

theorem find_append_of_none {α : Type} (p : α → Bool) (l₁ l₂ : List α)
    (h : l₁.find? p = none) : (l₁ ++ l₂).find? p = l₂.find? p := by
  induction l₁ with
  | nil => rfl
  | cons a tl ih =>
    have ha : ¬ p a = true := by
      intro hpa
      rw [List.find?_cons_of_pos _ hpa] at h
      exact Option.some_ne_none _ h
    have ht : tl.find? p = none := by
      rwa [List.find?_cons_of_neg _ ha] at h
    rw [List.cons_append, List.find?_cons_of_neg _ ha, ih ht]

theorem any_false_of_mem {α : Type} (p : α → Bool) (l : List α)
    (h : l.any p = false) : ∀ x ∈ l, p x = false := by
  intro x hx
  by_contra hc
  have hp : p x = true := by revert hc; cases p x <;> simp
  have : l.any p = true := List.any_eq_true.mpr ⟨x, hx, hp⟩
  rw [h] at this
  exact Bool.false_ne_true this

/-! ## Concrete fixtures used by the claim scenarios -/

def genC : Nat → String := fun n => "gen" ++ toString n

def prodC1 : Product :=
  { id := "p1", name := "Milk", imageUrl := "u", stock := some 10 }

def ordC1 : OrderType :=
  { id := "o1", storeName := "S", userEmail := "e",
    items := [⟨prodC1, 2⟩, ⟨prodC1, 3⟩], orderDate := "t", status := .pending }

def stateC1 : AppState := ⟨[ordC1], [prodC1]⟩

/-! ## Claim C6: status update on an absent order id -/

/-- C6: when the order id is absent from the ledger, updateOrderStatus
    signals not-found and performs no action: the state is unchanged and no
    persistence write (in particular no stock write) is issued. -/
theorem c6_setOrderStatus_absent (s : AppState) (orderId : String)
    (newStatus : OrderStatus) (statusWriteOk stockWritesOk : Bool)
    (h : s.orders.find? (fun o => o.id == orderId) = none) :
    updateOrderStatus s orderId newStatus statusWriteOk stockWritesOk
      = ⟨s, [], true⟩ := by
  unfold updateOrderStatus
  rw [h]

/-- Witness for C6 at a concrete one-order ledger and a missing id. -/
theorem c6_witness :
    updateOrderStatus stateC1 "missing" .delivered true true
      = ⟨stateC1, [], true⟩ :=
  c6_setOrderStatus_absent stateC1 "missing" .delivered true true (by decide)

/-! ## Claim C5: order submission -/

def prodC5 : Product :=
  { id := "p25", name := "Cheese", imageUrl := "u", price := some (2599/100) }

/-- C5: for a non-empty item sequence the submit handler stamps the
    generated id and timestamp, sets status Pending, appends the persisted
    order to the ledger and returns it; on persistence failure it returns
    none and leaves the ledger unchanged; and the concrete scenario of one
    item at price 25.99 and quantity 2 totals 51.98. -/
theorem c5_submitOrder (orders : List OrderType) (newId now storeName userEmail : String)
    (items : List OrderItemType) (persistOk : Bool) (hne : items ≠ []) :
    (persistOk = true → ∃ o : OrderType,
      handleSubmitOrder orders newId now storeName userEmail items persistOk
        = (some o, orders ++ [o]) ∧
      o.status = .pending ∧ o.id = newId ∧ o.orderDate = now ∧
      o.storeName = storeName ∧ o.userEmail = userEmail ∧ o.items = items ∧
      o.totalAmount = some (calculateTotal items)) ∧
    (persistOk = false →
      handleSubmitOrder orders newId now storeName userEmail items persistOk
        = (none, orders)) ∧
    calculateTotal [⟨prodC5, 2⟩] = 5198/100 := by
  have htot : calculateTotal [⟨prodC5, 2⟩] = 5198/100 := by
    norm_num [calculateTotal, prodC5]
  have hemp : items.isEmpty = false := by
    cases items with
    | nil => exact absurd rfl hne
    | cons a tl => rfl
  refine ⟨?_, ?_, htot⟩
  · intro hok
    subst hok
    exact ⟨_, by (rw [handleSubmitOrder, hemp]; rfl), rfl, rfl, rfl, rfl, rfl, rfl, rfl⟩
  · intro hfail
    subst hfail
    rw [handleSubmitOrder, hemp]
    rfl

/-- Witness for C5 at the concrete 25.99 x 2 scenario. -/
theorem c5_witness :
    (handleSubmitOrder [] "o9" "2024-01-01" "Acme Dairy" "a@b.com"
        [⟨prodC5, 2⟩] true).1.map (fun o => (o.status, o.totalAmount))
      = some (.pending, some (5198/100)) := by
  obtain ⟨o, heq, hst, _, _, _, _, _, htot⟩ :=
    (c5_submitOrder [] "o9" "2024-01-01" "Acme Dairy" "a@b.com"
      [⟨prodC5, 2⟩] true (by decide)).1 rfl
  rw [heq]
  simp only [Option.map_some']
  rw [hst, htot]
  norm_num [calculateTotal, prodC5]

/-! ## Claim C7: addProduct and lookup of the stored record -/

/-- C7: after a successful addProduct with a fresh generated id, looking up
    the returned record's id yields a record equal to the input with the id
    assigned and isVisible defaulted to true when unset; when the backing
    store rejects the write, the call returns none and the catalog is
    unchanged. -/
theorem c7_addProduct (products : List Product) (newId : String) (d : ProductData)
    (hfresh : ∀ p ∈ products, p.id ≠ newId) :
    (∃ q : Product, (addProduct products newId d true).1 = some q ∧
      getProductById (addProduct products newId d true).2 newId = some q ∧
      q.id = newId ∧ q.name = d.name ∧ q.description = d.description ∧
      q.price = d.price ∧ q.imageUrl = d.imageUrl ∧ q.barcode = d.barcode ∧
      q.quantityType = d.quantityType ∧ q.stock = d.stock ∧
      q.isVisible = some (d.isVisible.getD true)) ∧
    addProduct products newId d false = (none, products) := by
  have hnone : products.find? (fun p => p.id == newId) = none := by
    apply List.find?_eq_none.mpr
    intro p hp
    simp only [beq_iff_eq]
    exact hfresh p hp
  refine ⟨⟨_, rfl, ?_, rfl, rfl, rfl, rfl, rfl, rfl, rfl, rfl, ?_⟩, rfl⟩
  · show getProductById (products ++ [_]) newId = _
    rw [getProductById, find_append_of_none _ _ _ hnone]
    rw [List.find?_cons_of_pos _ (by simp [normVis])]
  · simp [normVis]

/-- Witness for C7: adding to a one-product catalog with a fresh id. -/
theorem c7_witness :
    getProductById (addProduct [prodC1] "newid"
        { name := "Yogurt", imageUrl := "v" } true).2 "newid"
      = some { id := "newid", name := "Yogurt", imageUrl := "v",
               isVisible := some true } := by
  obtain ⟨⟨q, _, hget, hid, hname, hdesc, hprice, himg, hbar, hqt, hstock, hvis⟩, _⟩ :=
    c7_addProduct [prodC1] "newid" { name := "Yogurt", imageUrl := "v" }
      (by intro p hp; simp [prodC1] at hp; subst hp; decide)
  rw [hget]
  congr 1
  cases q
  simp only at hid hname hdesc hprice himg hbar hqt hstock hvis
  simp [hid, hname, hdesc, hprice, himg, hbar, hqt, hstock, hvis]

/-! ## Claim C8: numeric field mapping in the import parser -/

theorem parse_price_eq (row : RawRow) :
    (parseImportRow row).price
      = (match row.price with
         | none => none
         | some s => if jsTrim s = "" then none else jsParseFloat (jsTrim s)) := by
  cases hp : row.price with
  | none => simp [parseImportRow, hp]
  | some s =>
    by_cases hs : jsTrim s = "" <;> simp [parseImportRow, hp, hs]

theorem parse_stock_eq (row : RawRow) :
    (parseImportRow row).stock
      = (match row.stock with
         | none => none
         | some s => if jsTrim s = "" then none
                     else (jsParseInt (jsTrim s)).map (fun i => (i : ℚ))) := by
  cases hp : row.stock with
  | none => simp [parseImportRow, hp]
  | some s =>
    by_cases hs : jsTrim s = "" <;> simp [parseImportRow, hp, hs]

/-- C8 (amended): the import parser maps the price cell through JS
    parseFloat and the stock cell through JS parseInt on the trimmed text,
    omitting the field (rather than zeroing it) when the cell is absent,
    blank, or unparseable; parsed values are taken as is, so they may be
    negative. -/
theorem c8_import_numeric_fields (row : RawRow) :
    (row.price = none → (parseImportRow row).price = none) ∧
    (∀ s, row.price = some s → jsTrim s = "" → (parseImportRow row).price = none) ∧
    (∀ s, row.price = some s → jsParseFloat (jsTrim s) = none →
      (parseImportRow row).price = none) ∧
    (∀ s v, row.price = some s → jsParseFloat (jsTrim s) = some v →
      (parseImportRow row).price = some v) ∧
    (row.stock = none → (parseImportRow row).stock = none) ∧
    (∀ s, row.stock = some s → jsTrim s = "" → (parseImportRow row).stock = none) ∧
    (∀ s, row.stock = some s → jsParseInt (jsTrim s) = none →
      (parseImportRow row).stock = none) ∧
    (∀ s n, row.stock = some s → jsParseInt (jsTrim s) = some n →
      (parseImportRow row).stock = some (n : ℚ)) := by
  refine ⟨?_, ?_, ?_, ?_, ?_, ?_, ?_, ?_⟩
  · intro h; rw [parse_price_eq, h]
  · intro s hs ht; rw [parse_price_eq, hs]; simp [ht]
  · intro s hs hn; rw [parse_price_eq, hs]
    by_cases ht : jsTrim s = "" <;> simp [ht, hn]
  · intro s v hs hv; rw [parse_price_eq, hs]
    have ht : ¬ jsTrim s = "" := by
      intro ht
      rw [ht] at hv
      exact Option.some_ne_none _ ((rfl : jsParseFloat "" = none) ▸ hv).symm
    simp [ht, hv]
  · intro h; rw [parse_stock_eq, h]
  · intro s hs ht; rw [parse_stock_eq, hs]; simp [ht]
  · intro s hs hn; rw [parse_stock_eq, hs]
    by_cases ht : jsTrim s = "" <;> simp [ht, hn]
  · intro s n hs hn; rw [parse_stock_eq, hs]
    have ht : ¬ jsTrim s = "" := by
      intro ht
      rw [ht] at hn
      exact Option.some_ne_none _ ((rfl : jsParseInt "" = none) ▸ hn).symm
    simp [ht, hn]

/-- C8 counterexample: the claim as stated requires the parsed stock to be
    a non-negative integer when present, but the cell "-5" parses to the
    negative value -5 (no sign check is performed). -/
theorem c8_counterexample :
    ¬ ((parseImportRow { stock := some "-5" }).stock = none ∨
       ∃ v : ℚ, (parseImportRow { stock := some "-5" }).stock = some v ∧ 0 ≤ v) := by
  have h : (parseImportRow { stock := some "-5" }).stock = some ((-5 : Int) : ℚ) := rfl
  intro hc
  rcases hc with h0 | ⟨v, hv, hnn⟩
  · rw [h] at h0
    exact Option.some_ne_none _ h0
  · rw [h] at hv
    have hv' : v = ((-5 : Int) : ℚ) := (Option.some.injEq _ _).mp hv.symm
    rw [hv'] at hnn
    norm_num at hnn

/-- Witness for C8 at concrete cells: a parseable stock cell is taken as
    parsed, an unparseable one is omitted. -/
theorem c8_witness :
    (parseImportRow { stock := some " 12 " }).stock = some ((12 : Int) : ℚ) ∧
    (parseImportRow { price := some "abc" }).price = none := by
  constructor
  · exact (c8_import_numeric_fields _).2.2.2.2.2.2.2 " 12 " 12 rfl (by decide)
  · exact (c8_import_numeric_fields _).2.2.1 "abc" rfl (by decide)

/-! ## Stock reconciliation lemmas (claims C10 and C1) -/

theorem find_key_eq {α : Type} (key : α → String) (l : List α) (i : String) (a : α)
    (h : l.find? (fun x => key x == i) = some a) : key a = i := by
  have := List.find?_some h
  simpa [beq_iff_eq] using this

/-- Per-item updated copies: each qualifying item contributes a copy of its
    product whose stock is the clamped decrement from the pre-delivery
    stock. -/
theorem updLocally_mem (products : List Product) (items : List OrderItemType)
    (item : OrderItemType) (p : Product) (st : ℚ)
    (hmem : item ∈ items)
    (hfind : products.find? (fun q => q.id == item.product.id) = some p)
    (hstock : p.stock = some st) :
    { p with stock := some (max 0 (st - item.quantity)) } ∈
      updatedProductsLocally products items := by
  apply List.mem_filterMap.mpr
  refine ⟨item, hmem, ?_⟩
  simp only [hfind, hstock]

/-- When the items reference pairwise distinct product ids, the updated copy
    found for an item's product id is exactly that item's clamped decrement
    of the pre-delivery stock. -/
theorem updLocally_find (products : List Product) (items : List OrderItemType)
    (item : OrderItemType) (p : Product) (st : ℚ)
    (hnodup : (items.map (fun i => i.product.id)).Nodup)
    (hmem : item ∈ items)
    (hfind : products.find? (fun q => q.id == item.product.id) = some p)
    (hstock : p.stock = some st) :
    (updatedProductsLocally products items).find? (fun u => u.id == item.product.id)
      = some { p with stock := some (max 0 (st - item.quantity)) } := by
  induction items with
  | nil => cases hmem
  | cons x tl ih =>
    rw [List.map_cons, List.nodup_cons] at hnodup
    rcases List.mem_cons.mp hmem with heq | htl
    · subst heq
      simp only [updatedProductsLocally, List.filterMap_cons, hfind, hstock]
      exact List.find?_cons_of_pos _ (by
        simp only [beq_iff_eq]
        exact find_key_eq (fun q => q.id) products item.product.id p hfind)
    · have hx : x.product.id ≠ item.product.id := by
        intro hcontra
        exact hnodup.1 (hcontra ▸ List.mem_map_of_mem (fun i => i.product.id) htl)
      have htail : (updatedProductsLocally products tl).find?
          (fun u => u.id == item.product.id)
          = some { p with stock := some (max 0 (st - item.quantity)) } :=
        ih hnodup.2 htl
      cases hfx : products.find? (fun q => q.id == x.product.id) with
      | none =>
        simpa only [updatedProductsLocally, List.filterMap_cons, hfx] using htail
      | some px =>
        cases hsx : px.stock with
        | none =>
          simpa only [updatedProductsLocally, List.filterMap_cons, hfx, hsx] using htail
        | some stx =>
          simp only [updatedProductsLocally, List.filterMap_cons, hfx, hsx]
          rw [List.find?_cons_of_neg _ (by
            simp only [beq_iff_eq]
            rw [show ({ px with stock := some (max 0 (stx - x.quantity)) } : Product).id = px.id from rfl,
              find_key_eq (fun q => q.id) products x.product.id px hfx]
            exact hx)]
          exact htail

/-- The updated copy carries the same id as the product it updates, so the
    catalog replacement map preserves ids. -/
theorem applyStock_id_pred (upd : List Product) (i : String) (p : Product) :
    (((upd.find? (fun u => u.id == p.id)).getD p).id == i) = (p.id == i) := by
  cases hf : upd.find? (fun u => u.id == p.id) with
  | none => rfl
  | some u =>
    simp only [Option.getD_some]
    rw [find_key_eq (fun u => u.id) upd p.id u hf]

/-! ## Claim C10: per-item stock updates are computed from the pre-delivery
    stock, independently of each other -/

/-- C10: every qualifying item of a delivered order contributes an updated
    copy computed from the product's pre-delivery stock (max 0 (s - q)),
    and in the concrete two-item order on one product (stock 10,
    quantities 2 and 3) the post-delivery catalog stock is 8 = max 0 (10-2),
    not the clamped sum max 0 (10-(2+3)) = 5. -/
theorem c10_per_item_from_predelivery (products : List Product)
    (items : List OrderItemType) (item : OrderItemType) (p : Product) (st : ℚ)
    (hmem : item ∈ items)
    (hfind : products.find? (fun q => q.id == item.product.id) = some p)
    (hstock : p.stock = some st) :
    ({ p with stock := some (max 0 (st - item.quantity)) } ∈
      updatedProductsLocally products items) ∧
    (updateOrderStatus stateC1 "o1" .delivered true true).state.products
      = [{ prodC1 with stock := some 8 }] ∧
    max (0:ℚ) (10 - (2 + 3)) = 5 ∧ (8:ℚ) ≠ 5 := by
  refine ⟨updLocally_mem products items item p st hmem hfind hstock, ?_, by norm_num, by norm_num⟩
  rw [show (updateOrderStatus stateC1 "o1" .delivered true true).state.products
      = [{ prodC1 with stock := some (max 0 (10 - (2:ℚ))) }] from rfl]
  norm_num

/-- Witness for C10: the first item of the concrete duplicate-product order. -/
theorem c10_witness :
    ({ prodC1 with stock := some (max 0 (10 - (⟨prodC1, 2⟩ : OrderItemType).quantity)) } ∈
      updatedProductsLocally [prodC1] ordC1.items) ∧
    (8:ℚ) ≠ 5 :=
  ⟨(c10_per_item_from_predelivery [prodC1] ordC1.items ⟨prodC1, 2⟩ prodC1 10
      (by decide) rfl rfl).1,
   (c10_per_item_from_predelivery [prodC1] ordC1.items ⟨prodC1, 2⟩ prodC1 10
      (by decide) rfl rfl).2.2.2⟩

/-! ## Claim C1: stock reconciliation on the transition into Delivered -/

/-- C1 (amended): for an order transitioned into Delivered from a
    non-Delivered status whose items reference pairwise distinct product
    ids, each item whose product exists with numeric stock s ends with
    catalog stock max 0 (s - quantity) and a matching persistence write is
    issued; transitioning the same order Delivered to Delivered afterwards
    leaves the catalog unchanged. -/
theorem c1_delivery_reconciliation (s : AppState) (orderId : String)
    (o : OrderType) (item : OrderItemType) (p : Product) (st : ℚ)
    (hord : s.orders.find? (fun x => x.id == orderId) = some o)
    (hold : o.status ≠ .delivered)
    (hnodup : (o.items.map (fun i => i.product.id)).Nodup)
    (hmem : item ∈ o.items)
    (hfind : s.products.find? (fun q => q.id == item.product.id) = some p)
    (hstock : p.stock = some st) :
    ((updateOrderStatus s orderId .delivered true true).state.products.find?
        (fun q => q.id == item.product.id)
      = some { p with stock := some (max 0 (st - item.quantity)) }) ∧
    (DbWrite.productStock p.id (some (max 0 (st - item.quantity)))
      ∈ (updateOrderStatus s orderId .delivered true true).writes) ∧
    ((updateOrderStatus (updateOrderStatus s orderId .delivered true true).state
        orderId .delivered true true).state.products
      = (updateOrderStatus s orderId .delivered true true).state.products) := by
  have hshape : updateOrderStatus s orderId .delivered true true
      = ⟨⟨s.orders.map (fun x => if x.id == orderId then { x with status := .delivered } else x),
          applyStockAdjustment s.products (updatedProductsLocally s.products o.items)⟩,
         DbWrite.orderStatus orderId .delivered ::
           (updatedProductsLocally s.products o.items).map
             (fun u => DbWrite.productStock u.id u.stock),
         false⟩ := by
    simp only [updateOrderStatus, hord]
    simp [hold]
  have hpid : p.id = item.product.id := find_key_eq (fun q => q.id) s.products _ p hfind
  have hupd : (updatedProductsLocally s.products o.items).find?
      (fun u => u.id == item.product.id)
      = some { p with stock := some (max 0 (st - item.quantity)) } :=
    updLocally_find s.products o.items item p st hnodup hmem hfind hstock
  have hupd' : (updatedProductsLocally s.products o.items).find?
      (fun u => u.id == p.id)
      = some { p with stock := some (max 0 (st - item.quantity)) } := by
    nth_rewrite 1 [hpid]
    exact hupd
  refine ⟨?_, ?_, ?_⟩
  · rw [hshape]
    show (applyStockAdjustment s.products _).find? _ = _
    unfold applyStockAdjustment
    rw [find_map_of_pred_eq _ _ (fun q => q.id == item.product.id) _
      (fun a => applyStock_id_pred _ item.product.id a), hfind]
    simp only [Option.map_some']
    rw [hupd']
    rfl
  · rw [hshape]
    show _ ∈ DbWrite.orderStatus orderId .delivered ::
      (updatedProductsLocally s.products o.items).map
        (fun u => DbWrite.productStock u.id u.stock)
    apply List.mem_cons_of_mem
    have hm : ({ p with stock := some (max 0 (st - item.quantity)) } : Product)
        ∈ updatedProductsLocally s.products o.items :=
      updLocally_mem s.products o.items item p st hmem hfind hstock
    exact List.mem_map_of_mem (fun u => DbWrite.productStock u.id u.stock) hm
  · have hoid : o.id = orderId := find_key_eq (fun x => x.id) s.orders orderId o hord
    have hordid : (o.id == orderId) = true := by
      rw [hoid]
      exact beq_self_eq_true orderId
    have hfind2 : ((s.orders.map
          (fun x => if x.id == orderId then { x with status := OrderStatus.delivered } else x)).find?
        (fun x => x.id == orderId)) = some { o with status := .delivered } := by
      rw [find_map_of_pred_eq _ _ (fun x => x.id == orderId) _ (fun a => by
        by_cases ha : (a.id == orderId) = true
        · rw [if_pos ha]
        · rw [if_neg ha]), hord]
      simp only [Option.map_some']
      rw [if_pos hordid]
    rw [hshape]
    simp only [updateOrderStatus]
    rw [hfind2]
    simp

/-- C1 counterexample: in the concrete state, order o1 (Pending) holds two
    items for product p1 (stock 10) with quantities 2 and 3; after the
    transition into Delivered the second item violates the claimed
    post-transition stock max 0 (10 - 3) = 7 (the catalog holds 8). -/
theorem c1_counterexample :
    stateC1.orders.find? (fun x => x.id == "o1") = some ordC1 ∧
    ordC1.status ≠ .delivered ∧
    (⟨prodC1, 3⟩ : OrderItemType) ∈ ordC1.items ∧
    stateC1.products.find?
      (fun q => q.id == (⟨prodC1, (3:ℚ)⟩ : OrderItemType).product.id) = some prodC1 ∧
    prodC1.stock = some 10 ∧
    ¬ ((updateOrderStatus stateC1 "o1" .delivered true true).state.products.find?
        (fun q => q.id == (⟨prodC1, (3:ℚ)⟩ : OrderItemType).product.id)
      = some { prodC1 with stock := some (max 0 (10 - (⟨prodC1, (3:ℚ)⟩ : OrderItemType).quantity)) }) := by
  refine ⟨rfl, by decide, by decide, rfl, rfl, ?_⟩
  rw [show (updateOrderStatus stateC1 "o1" .delivered true true).state.products
      = [{ prodC1 with stock := some (max 0 (10 - (2:ℚ))) }] from rfl]
  rw [List.find?_cons_of_pos _ (by decide)]
  intro hsome
  have hrec := (Option.some.injEq _ _).mp hsome
  have hst := congrArg Product.stock hrec
  simp only at hst
  have hq := (Option.some.injEq _ _).mp hst
  norm_num at hq

def ordW : OrderType :=
  { id := "w1", storeName := "S", userEmail := "e",
    items := [⟨prodC1, 4⟩], orderDate := "t", status := .pending }

def stateW : AppState := ⟨[ordW], [prodC1]⟩

/-- Witness for C1 at a concrete single-item order: stock 10, quantity 4,
    post-delivery stock 6, and a second Delivered transition changes
    nothing. -/
theorem c1_witness :
    ((updateOrderStatus stateW "w1" .delivered true true).state.products.find?
        (fun q => q.id == "p1")
      = some { prodC1 with stock := some (max 0 (10 - (4:ℚ))) }) ∧
    ((updateOrderStatus (updateOrderStatus stateW "w1" .delivered true true).state
        "w1" .delivered true true).state.products
      = (updateOrderStatus stateW "w1" .delivered true true).state.products) := by
  have h := c1_delivery_reconciliation stateW "w1" ordW ⟨prodC1, 4⟩ prodC1 10
    rfl (by decide) (by decide) (by decide) rfl rfl
  exact ⟨h.1, h.2.2⟩

/-! ## Claim C2: tracked stock never goes negative -/

def stockOk (p : Product) : Bool :=
  match p.stock with
  | some v => decide (0 ≤ v)
  | none => true

def allStocksNonneg (l : List Product) : Bool :=
  l.all stockOk

def rowStockOk (r : PartialProduct) : Bool :=
  match r.stock with
  | some v => decide (0 ≤ v)
  | none => true

theorem mem_upsertOne (c : List Product) (p q : Product)
    (h : q ∈ upsertOne c p) : q ∈ c ∨ q = p := by
  unfold upsertOne at h
  by_cases ha : c.any (fun x => x.id == p.id) = true
  · rw [if_pos ha] at h
    rcases List.mem_map.mp h with ⟨y, hy, hmap⟩
    by_cases hid : (y.id == p.id) = true
    · rw [if_pos hid] at hmap
      right
      exact hmap.symm
    · rw [if_neg hid] at hmap
      left
      exact hmap ▸ hy
  · rw [if_neg ha] at h
    rcases List.mem_append.mp h with h1 | h2
    · left; exact h1
    · right; simpa using h2

theorem mem_foldl_upsert (ps : List Product) : ∀ (c : List Product) (q : Product),
    q ∈ ps.foldl upsertOne c → q ∈ c ∨ q ∈ ps := by
  induction ps with
  | nil =>
    intro c q h
    left
    exact h
  | cons p tl ih =>
    intro c q h
    rcases ih (upsertOne c p) q h with h1 | h2
    · rcases mem_upsertOne c p q h1 with hc | hp
      · left; exact hc
      · right; rw [hp]; exact List.mem_cons_self p tl
    · right; exact List.mem_cons_of_mem p h2

theorem mem_buildProductsAux (gen : Nat → String) (rows : List PartialProduct) :
    ∀ (n : Nat) (q : Product), q ∈ (buildProductsAux gen rows n).1 →
      ∃ r ∈ rows, ∃ m, q = buildFullProduct (gen m) r := by
  induction rows with
  | nil =>
    intro n q h
    cases h
  | cons r rs ih =>
    intro n q h
    simp only [buildProductsAux] at h
    rcases List.mem_cons.mp h with heq | htl
    · exact ⟨r, List.mem_cons_self r rs, n, heq⟩
    · rcases ih _ q htl with ⟨r', hr', m, hm⟩
      exact ⟨r', List.mem_cons_of_mem r hr', m, hm⟩

theorem stockOk_normVis (p : Product) : stockOk (normVis p) = stockOk p := rfl

theorem stockOk_build (x : String) (r : PartialProduct)
    (h : rowStockOk r = true) : stockOk (buildFullProduct x r) = true := by
  cases hs : r.stock with
  | none =>
    simp only [stockOk, buildFullProduct, hs, Option.getD_none]
    norm_num
  | some v =>
    simp only [rowStockOk, hs] at h
    simp only [stockOk, buildFullProduct, hs, Option.getD_some]
    exact h

theorem stockOk_updLocally (products : List Product) (items : List OrderItemType)
    (u : Product) (h : u ∈ updatedProductsLocally products items) :
    stockOk u = true := by
  rcases List.mem_filterMap.mp h with ⟨item, _, hf⟩
  cases hfind : products.find? (fun p => p.id == item.product.id) with
  | none =>
    simp [hfind] at hf
  | some product =>
    simp only [hfind] at hf
    cases hstock : product.stock with
    | none =>
      simp [hstock] at hf
    | some st =>
      simp only [hstock] at hf
      have hu := (Option.some.injEq _ _).mp hf
      rw [← hu]
      simp only [stockOk]
      simp [le_max_left]

theorem mem_applyStock (products upd : List Product) (q : Product)
    (h : q ∈ applyStockAdjustment products upd) : q ∈ products ∨ q ∈ upd := by
  rcases List.mem_map.mp h with ⟨p, hp, hmap⟩
  cases hf : upd.find? (fun u => u.id == p.id) with
  | none =>
    rw [hf] at hmap
    left
    exact hmap ▸ hp
  | some u =>
    rw [hf] at hmap
    right
    simp only [Option.getD_some] at hmap
    exact hmap ▸ List.mem_of_find?_eq_some hf

theorem updateOrderStatus_products_cases (s : AppState) (orderId : String)
    (newStatus : OrderStatus) (a b : Bool) :
    (updateOrderStatus s orderId newStatus a b).state.products = s.products ∨
    ∃ items, (updateOrderStatus s orderId newStatus a b).state.products
      = applyStockAdjustment s.products (updatedProductsLocally s.products items) := by
  unfold updateOrderStatus
  split
  · left; rfl
  · split
    · split
      · split
        · right; exact ⟨_, rfl⟩
        · left; rfl
      · left; rfl
    · left; rfl

/-- C2 (amended): stock reconciliation always clamps at zero; updateProduct
    and bulkAddProducts preserve non-negative stocks provided the stock
    values supplied in the patch or rows are themselves non-negative (no
    sign check is performed on parsed cells, so negative imported stock
    values do reach the store). -/
theorem c2_stock_nonneg (s : AppState) (orderId : String) (newStatus : OrderStatus)
    (a b : Bool) (productId : String) (patch : PartialProduct)
    (gen : Nat → String) (n : Nat) (rows : List PartialProduct)
    (h1 : allStocksNonneg s.products = true)
    (h2 : rowStockOk patch = true)
    (h3 : rows.all rowStockOk = true) :
    allStocksNonneg (updateOrderStatus s orderId newStatus a b).state.products = true ∧
    allStocksNonneg (updateProduct s.products productId patch) = true ∧
    allStocksNonneg (bulkAddProducts gen (s.products, n) rows).1 = true := by
  refine ⟨?_, ?_, ?_⟩
  · rcases updateOrderStatus_products_cases s orderId newStatus a b with hcase | ⟨items, hcase⟩
    · rw [hcase]; exact h1
    · rw [hcase]
      apply List.all_eq_true.mpr
      intro q hq
      rcases mem_applyStock _ _ q hq with hq1 | hq2
      · exact List.all_eq_true.mp h1 q hq1
      · exact stockOk_updLocally _ _ q hq2
  · unfold updateProduct
    cases hf : s.products.find? (fun p => p.id == productId) with
    | none => exact h1
    | some existing =>
      apply List.all_eq_true.mpr
      intro q hq
      rcases List.mem_map.mp hq with ⟨y, hy, hmap⟩
      by_cases hid : (y.id == productId) = true
      · rw [if_pos hid] at hmap
        rw [← hmap, stockOk_normVis]
        cases hps : patch.stock with
        | none =>
          have : (applyPatch existing patch).stock = existing.stock := by
            simp [applyPatch, hps]
          simp only [stockOk, this]
          have hex := List.all_eq_true.mp h1 existing (List.mem_of_find?_eq_some hf)
          simpa [stockOk] using hex
        | some v =>
          have : (applyPatch existing patch).stock = some v := by
            simp [applyPatch, hps]
          simp only [stockOk, this]
          simpa [rowStockOk, hps] using h2
      · rw [if_neg hid] at hmap
        exact List.all_eq_true.mp h1 q (hmap ▸ hy)
  · unfold bulkAddProducts
    apply List.all_eq_true.mpr
    intro q hq
    rcases List.mem_map.mp hq with ⟨q₀, hq₀, hmap⟩
    rw [← hmap, stockOk_normVis]
    rcases mem_foldl_upsert _ _ _ hq₀ with hc | hps
    · exact List.all_eq_true.mp h1 q₀ hc
    · rcases mem_buildProductsAux gen rows n q₀ hps with ⟨r, hr, m, hq₀eq⟩
      rw [hq₀eq]
      exact stockOk_build _ r (List.all_eq_true.mp h3 r hr)

/-- C2 counterexample: starting from the (vacuously non-negative) empty
    catalog, one bulk merge of a row carrying stock -5 leaves the catalog
    with a negative tracked stock. -/
theorem c2_counterexample :
    allStocksNonneg [] = true ∧
    allStocksNonneg (bulkAddProducts genC ([], 0) [{ stock := some (-5) }]).1 = false := by
  refine ⟨rfl, ?_⟩
  show (List.all _ stockOk) = false
  rw [show (bulkAddProducts genC ([], 0) [{ stock := some (-5) }]).1
      = [normVis (buildFullProduct (genC 0) { stock := some (-5) })] from rfl]
  simp only [List.all_cons, List.all_nil, Bool.and_true]
  rw [stockOk_normVis]
  simp only [stockOk, buildFullProduct, Option.getD_some]
  norm_num

/-- Witness for C2 on a concrete state, patch and row sequence. -/
theorem c2_witness :
    allStocksNonneg (updateOrderStatus stateC1 "o1" .delivered true true).state.products = true ∧
    allStocksNonneg (updateProduct stateC1.products "p1" { stock := some 3 }) = true ∧
    allStocksNonneg (bulkAddProducts genC (stateC1.products, 0) [{ stock := some 2 }]).1 = true := by
  have h := c2_stock_nonneg stateC1 "o1" .delivered true true "p1" { stock := some 3 }
    genC 0 [{ stock := some 2 }]
    (by show (List.all _ _) = true
        simp only [stateC1, List.all_cons, List.all_nil, Bool.and_true]
        simp only [stockOk, prodC1]
        norm_num)
    (by simp only [rowStockOk]; norm_num)
    (by simp only [List.all_cons, List.all_nil, Bool.and_true, rowStockOk]; norm_num)
  exact h

/-! ## Claim C3: idempotence of bulk merge -/

/-- True when the row carries a non-empty id, so that bulk merge reuses it
    instead of generating a fresh one. -/
def hasRealId (r : PartialProduct) : Bool :=
  match r.id with
  | some s => !(s == "")
  | none => false

/-- In-place replacement of every catalog entry carrying the product's id. -/
def replaceById (c : List Product) (p : Product) : List Product :=
  c.map (fun q => if q.id == p.id then p else q)

/-- The accumulated effect of a replacement sequence on one catalog entry. -/
def applySeq (ps : List Product) (q : Product) : Product :=
  ps.foldl (fun acc p => if acc.id == p.id then p else acc) q

/-- The last product in the batch carrying a given id, if any. -/
def lastMatch (ps : List Product) (i : String) : Option Product :=
  ps.foldl (fun acc p => if p.id == i then some p else acc) none

def idsOf (c : List Product) : List String :=
  c.map (fun q => q.id)

theorem buildFullProduct_id_indep (x : String) (r : PartialProduct) (s : String)
    (hid : r.id = some s) (hs : s ≠ "") :
    buildFullProduct x r = buildFullProduct "" r := by
  unfold buildFullProduct jsOrElse
  simp only [hid]
  rw [if_neg hs, if_neg hs]

theorem buildProductsAux_pure (gen : Nat → String) (rows : List PartialProduct)
    (hids : rows.all hasRealId = true) : ∀ n : Nat,
    buildProductsAux gen rows n = (rows.map (buildFullProduct ""), n) := by
  induction rows with
  | nil => intro n; rfl
  | cons r rs ih =>
    intro n
    rw [List.all_cons, Bool.and_eq_true] at hids
    obtain ⟨h1, h2⟩ := hids
    cases hid : r.id with
    | none => simp [hasRealId, hid] at h1
    | some s =>
      have hs : ¬ s = "" := by simpa [hasRealId, hid] using h1
      have hfresh : usesFreshId r = false := by
        simp [usesFreshId, hid, hs]
      simp only [buildProductsAux, List.map_cons]
      rw [buildFullProduct_id_indep (gen n) r s hid hs, hfresh]
      rw [if_neg Bool.false_ne_true]
      rw [ih h2 n]

theorem ids_replace (c : List Product) (p : Product) :
    idsOf (replaceById c p) = idsOf c := by
  unfold idsOf replaceById
  rw [List.map_map]
  apply List.map_congr_left
  intro a _
  by_cases h : (a.id == p.id) = true
  · show (if (a.id == p.id) = true then p else a).id = a.id
    rw [if_pos h]
    exact (eq_of_beq h).symm
  · show (if (a.id == p.id) = true then p else a).id = a.id
    rw [if_neg h]

theorem ids_map_normVis (c : List Product) :
    idsOf (c.map normVis) = idsOf c := by
  unfold idsOf
  rw [List.map_map]
  apply List.map_congr_left
  intro a _
  rfl

theorem mem_ids_upsert (c : List Product) (p : Product) (i : String)
    (h : i ∈ idsOf c) : i ∈ idsOf (upsertOne c p) := by
  unfold upsertOne
  by_cases ha : c.any (fun x => x.id == p.id) = true
  · rw [if_pos ha]
    show i ∈ idsOf (replaceById c p)
    rw [ids_replace]
    exact h
  · rw [if_neg ha]
    unfold idsOf
    rw [List.map_append]
    exact List.mem_append_left _ h

theorem pid_mem_upsert (c : List Product) (p : Product) :
    p.id ∈ idsOf (upsertOne c p) := by
  unfold upsertOne
  by_cases ha : c.any (fun x => x.id == p.id) = true
  · rw [if_pos ha]
    show p.id ∈ idsOf (replaceById c p)
    rw [ids_replace]
    rcases List.any_eq_true.mp ha with ⟨x, hx, hbeq⟩
    rw [← eq_of_beq hbeq]
    exact List.mem_map_of_mem _ hx
  · rw [if_neg ha]
    unfold idsOf
    rw [List.map_append]
    apply List.mem_append_right
    simp

theorem fold_ids_mono (ps : List Product) : ∀ (c : List Product) (i : String),
    i ∈ idsOf c → i ∈ idsOf (ps.foldl upsertOne c) := by
  induction ps with
  | nil => intro c i h; exact h
  | cons p tl ih =>
    intro c i h
    rw [List.foldl_cons]
    exact ih (upsertOne c p) i (mem_ids_upsert c p i h)

theorem fold_ids_mem (ps : List Product) : ∀ (c : List Product) (p : Product),
    p ∈ ps → p.id ∈ idsOf (ps.foldl upsertOne c) := by
  induction ps with
  | nil => intro c p h; cases h
  | cons x tl ih =>
    intro c p h
    rw [List.foldl_cons]
    rcases List.mem_cons.mp h with heq | htl
    · subst heq
      exact fold_ids_mono tl (upsertOne c p) p.id (pid_mem_upsert c p)
    · exact ih (upsertOne c x) p htl

theorem upsert_eq_replace (c : List Product) (p : Product)
    (h : p.id ∈ idsOf c) : upsertOne c p = replaceById c p := by
  rcases List.mem_map.mp h with ⟨q, hq, hqid⟩
  unfold upsertOne
  rw [if_pos (List.any_eq_true.mpr ⟨q, hq, by rw [hqid]; exact beq_self_eq_true p.id⟩)]
  rfl

theorem fold_replace (ps : List Product) : ∀ (c : List Product),
    (∀ p ∈ ps, p.id ∈ idsOf c) →
    ps.foldl upsertOne c = ps.foldl replaceById c := by
  induction ps with
  | nil => intro c _; rfl
  | cons p tl ih =>
    intro c h
    rw [List.foldl_cons, List.foldl_cons,
      upsert_eq_replace c p (h p (List.mem_cons_self p tl))]
    apply ih (replaceById c p)
    intro x hx
    rw [ids_replace]
    exact h x (List.mem_cons_of_mem p hx)

theorem fold_replace_eq_map (ps : List Product) : ∀ c : List Product,
    ps.foldl replaceById c = c.map (applySeq ps) := by
  induction ps with
  | nil =>
    intro c
    show c = c.map (applySeq [])
    rw [show applySeq [] = id from rfl, List.map_id]
  | cons p tl ih =>
    intro c
    rw [List.foldl_cons, ih (replaceById c p)]
    unfold replaceById
    rw [List.map_map]
    apply List.map_congr_left
    intro a _
    rfl

theorem lastMatch_cons (p : Product) (tl : List Product) (i : String) :
    lastMatch (p :: tl) i
      = Option.or (lastMatch tl i) (if p.id == i then some p else none) := by
  have hacc : ∀ (ps : List Product) (a : Option Product),
      ps.foldl (fun acc x => if x.id == i then some x else acc) a
        = Option.or (lastMatch ps i) a := by
    intro ps
    induction ps with
    | nil => intro a; rfl
    | cons x tl' ih =>
      intro a
      rw [List.foldl_cons, ih]
      show Option.or (lastMatch tl' i) _
        = Option.or (lastMatch (x :: tl') i) a
      rw [show lastMatch (x :: tl') i
          = Option.or (lastMatch tl' i) (if x.id == i then some x else none) from by
        unfold lastMatch
        rw [List.foldl_cons, ih]
        rfl]
      by_cases hx : (x.id == i) = true
      · rw [if_pos hx, if_pos hx]
        cases lastMatch tl' i <;> rfl
      · rw [if_neg hx, if_neg hx]
        cases lastMatch tl' i <;> rfl
  unfold lastMatch
  rw [List.foldl_cons, hacc]
  rfl

theorem lastMatch_none (ps : List Product) (i : String)
    (h : lastMatch ps i = none) : ∀ x ∈ ps, (x.id == i) = false := by
  induction ps with
  | nil => intro x hx; cases hx
  | cons p tl ih =>
    rw [lastMatch_cons] at h
    have htl : lastMatch tl i = none := by
      cases hM : lastMatch tl i with
      | none => rfl
      | some r => rw [hM] at h; cases h
    have hp : (p.id == i) = false := by
      rw [htl] at h
      by_cases hc : (p.id == i) = true
      · rw [if_pos hc] at h
        cases h
      · revert hc; cases p.id == i <;> simp
    intro x hx
    rcases List.mem_cons.mp hx with heq | hmem
    · subst heq; exact hp
    · exact ih htl x hmem

theorem lastMatch_mem (ps : List Product) (i : String) (r : Product)
    (h : lastMatch ps i = some r) : r ∈ ps := by
  induction ps with
  | nil => cases h
  | cons p tl ih =>
    rw [lastMatch_cons] at h
    cases hM : lastMatch tl i with
    | some r' =>
      rw [hM] at h
      have hrr : r' = r := (Option.some.injEq _ _).mp h
      rw [hrr] at hM
      exact List.mem_cons_of_mem p (ih hM)
    | none =>
      rw [hM] at h
      by_cases hc : (p.id == i) = true
      · rw [if_pos hc] at h
        have : p = r := (Option.some.injEq _ _).mp h
        rw [← this]
        exact List.mem_cons_self p tl
      · rw [if_neg hc] at h
        cases h

theorem applySeq_eq (ps : List Product) : ∀ q : Product,
    applySeq ps q = (lastMatch ps q.id).getD q := by
  induction ps with
  | nil => intro q; rfl
  | cons p tl ih =>
    intro q
    rw [show applySeq (p :: tl) q
        = applySeq tl (if q.id == p.id then p else q) from rfl]
    rw [lastMatch_cons]
    by_cases h : (q.id == p.id) = true
    · rw [if_pos h, ih p]
      have hq : q.id = p.id := eq_of_beq h
      have hpq : (p.id == q.id) = true := by
        rw [hq]
        exact beq_self_eq_true p.id
      rw [if_pos hpq, hq]
      cases lastMatch tl p.id <;> rfl
    · rw [if_neg h, ih q]
      have hpq : ¬ (p.id == q.id) = true := by
        intro hc
        exact h (by rw [eq_of_beq hc]; exact beq_self_eq_true q.id)
      rw [if_neg hpq]
      cases lastMatch tl q.id <;> rfl

theorem fold_untouched (i : String) (ps : List Product)
    (hno : ∀ x ∈ ps, (x.id == i) = false) : ∀ (c : List Product) (q : Product),
    q ∈ ps.foldl upsertOne c → q.id = i → q ∈ c := by
  induction ps with
  | nil => intro c q h _; exact h
  | cons x tl ih =>
    intro c q h hqi
    have h1 : q ∈ upsertOne c x :=
      ih (fun y hy => hno y (List.mem_cons_of_mem x hy)) (upsertOne c x) q h hqi
    rcases mem_upsertOne c x q h1 with hc | hx
    · exact hc
    · exfalso
      have hxid : (x.id == i) = false := hno x (List.mem_cons_self x tl)
      have htrue : (x.id == i) = true := by
        rw [← hx, hqi]
        exact beq_self_eq_true i
      cases htrue.symm.trans hxid

theorem upsert_self_id (c : List Product) (p q : Product)
    (h : q ∈ upsertOne c p) (hid : q.id = p.id) : q = p := by
  unfold upsertOne at h
  by_cases ha : c.any (fun x => x.id == p.id) = true
  · rw [if_pos ha] at h
    rcases List.mem_map.mp h with ⟨y, hy, hmap⟩
    by_cases hyid : (y.id == p.id) = true
    · rw [if_pos hyid] at hmap
      exact hmap.symm
    · exfalso
      rw [if_neg hyid] at hmap
      rw [← hmap] at hid
      exact hyid (by rw [hid]; exact beq_self_eq_true p.id)
  · rw [if_neg ha] at h
    rcases List.mem_append.mp h with h1 | h2
    · exfalso
      have hfalse : (c.any fun x => x.id == p.id) = false := by
        rwa [Bool.not_eq_true] at ha
      have := any_false_of_mem _ c hfalse q h1
      rw [hid, beq_self_eq_true] at this
      cases this
    · simpa using h2

theorem fold_crux (ps : List Product) : ∀ (c : List Product) (q r : Product),
    q ∈ ps.foldl upsertOne c → lastMatch ps q.id = some r → q = r := by
  induction ps with
  | nil => intro c q r _ hl; cases hl
  | cons p tl ih =>
    intro c q r h hl
    rw [lastMatch_cons] at hl
    cases hM : lastMatch tl q.id with
    | some r' =>
      rw [hM] at hl
      have hrr : r' = r := (Option.some.injEq _ _).mp hl
      exact hrr ▸ ih (upsertOne c p) q r' h hM
    | none =>
      rw [hM] at hl
      by_cases hp : (p.id == q.id) = true
      · rw [if_pos hp] at hl
        have hrp : p = r := (Option.some.injEq _ _).mp hl
        have hq1 : q ∈ upsertOne c p :=
          fold_untouched q.id tl (lastMatch_none tl q.id hM) (upsertOne c p) q h rfl
        have hqp : q = p := upsert_self_id c p q hq1 (eq_of_beq hp).symm
        rw [hqp, hrp]
      · rw [if_neg hp] at hl
        cases hl

theorem normVis_build (x : String) (r : PartialProduct) :
    normVis (buildFullProduct x r) = buildFullProduct x r := rfl

theorem normVis_idem (p : Product) : normVis (normVis p) = normVis p := rfl

/-- C3 (amended): bulkAddProducts is idempotent for every row sequence in
    which every row carries a non-empty id; a row without one consumes a
    freshly generated id on each application, so repeating the call inserts
    a duplicate product for it instead of reproducing the same catalog. -/
theorem c3_bulkMerge_idempotent (gen : Nat → String) (c : List Product) (n : Nat)
    (rows : List PartialProduct) (hids : rows.all hasRealId = true) :
    bulkAddProducts gen (bulkAddProducts gen (c, n) rows) rows
      = bulkAddProducts gen (c, n) rows := by
  have hbuild := buildProductsAux_pure gen rows hids
  set ps := rows.map (buildFullProduct "") with hpsdef
  have h1 : bulkAddProducts gen (c, n) rows = ((ps.foldl upsertOne c).map normVis, n) := by
    unfold bulkAddProducts
    rw [hbuild n]
  set c₁ := (ps.foldl upsertOne c).map normVis with hc₁def
  have hps_mem : ∀ p ∈ ps, p.id ∈ idsOf c₁ := by
    intro p hp
    rw [hc₁def, ids_map_normVis]
    exact fold_ids_mem ps c p hp
  have h2 : bulkAddProducts gen (c₁, n) rows = ((ps.foldl upsertOne c₁).map normVis, n) := by
    unfold bulkAddProducts
    rw [hbuild n]
  have h3 : ps.foldl upsertOne c₁ = c₁.map (applySeq ps) := by
    rw [fold_replace ps c₁ hps_mem, fold_replace_eq_map]
  have h4 : ∀ q ∈ c₁, applySeq ps q = q := by
    intro q hq
    rw [hc₁def] at hq
    rcases List.mem_map.mp hq with ⟨q₀, hq₀, hqeq⟩
    rw [applySeq_eq]
    cases hM : lastMatch ps q.id with
    | none => rfl
    | some r =>
      have hq₀id : q₀.id = q.id := by rw [← hqeq]; rfl
      have hM₀ : lastMatch ps q₀.id = some r := by rw [hq₀id]; exact hM
      have hq₀r : q₀ = r := fold_crux ps c q₀ r hq₀ hM₀
      have hrps : r ∈ ps := lastMatch_mem ps q.id r hM
      rw [hpsdef] at hrps
      rcases List.mem_map.mp hrps with ⟨row, _, hrow⟩
      have hnr : normVis r = r := by rw [← hrow]; exact normVis_build "" row
      show r = q
      rw [← hqeq, hq₀r, hnr]
  have h5 : c₁.map (applySeq ps) = c₁ := by
    rw [show c₁.map (applySeq ps) = c₁.map id from List.map_congr_left h4, List.map_id]
  have h6 : c₁.map normVis = c₁ := by
    rw [hc₁def, List.map_map]
    apply List.map_congr_left
    intro a _
    exact normVis_idem a
  rw [h1, h2, h3, h5, h6]

/-- C3 counterexample: merging the single id-less row (name "A") once
    yields one product, while merging it twice yields two (a second fresh
    id is generated), so the final catalogs differ. -/
theorem c3_counterexample :
    (bulkAddProducts genC (bulkAddProducts genC ([], 0) [{ name := some "A" }])
        [{ name := some "A" }]).1
      ≠ (bulkAddProducts genC ([], 0) [{ name := some "A" }]).1 := by
  intro h
  have hlen := congrArg List.length h
  rw [show (bulkAddProducts genC (bulkAddProducts genC ([], 0) [{ name := some "A" }])
        [{ name := some "A" }]).1.length = 2 from rfl,
      show (bulkAddProducts genC ([], 0) [{ name := some "A" }]).1.length = 1 from rfl] at hlen
  cases hlen

/-- Witness for C3 on a one-row sequence carrying the id "a". -/
theorem c3_witness :
    bulkAddProducts genC (bulkAddProducts genC ([], 0) [{ id := some "a", stock := some 5 }])
        [{ id := some "a", stock := some 5 }]
      = bulkAddProducts genC ([], 0) [{ id := some "a", stock := some 5 }] :=
  c3_bulkMerge_idempotent genC [] 0 [{ id := some "a", stock := some 5 }] (by decide)

/-! ## Claims C4 and C9: the export/import round trip and the empty-row
    filter -/

set_option maxRecDepth 40000

def pA4 : Product :=
  { id := "a", name := "A", description := some "da", price := some 1,
    imageUrl := "ua", barcode := some "ba", quantityType := some .unit,
    stock := some 4, isVisible := some true }

def pB4 : Product :=
  { id := "b", name := "B", description := some "db", price := some 2,
    imageUrl := "ub", barcode := some "bb", quantityType := some .kg,
    stock := some 6, isVisible := some true }

/-- C4: the export writer is invoked without a header list, so the
    delimited text it produces carries no header row; the import reader is
    configured to treat the first row as the header.  On a two-product
    catalog with every optional field present, the first product's data row
    is consumed as column names, the second maps to a record with only the
    defaulted quantityType/isVisible fields, and the round trip appends a
    default-filled "Unnamed Product" instead of reproducing the catalog. -/
theorem c4_roundtrip_fails :
    ((csvParse (exportProductsCsv [pA4, pB4])).head? = some (exportFields pA4)) ∧
    ((importProductsFlow genC ([pA4, pB4], 0) (exportProductsCsv [pA4, pB4])).1.map
        (fun p => p.name) = ["A", "B", "Unnamed Product"]) ∧
    (importProductsFlow genC ([pA4, pB4], 0) (exportProductsCsv [pA4, pB4])).1
      ≠ [pA4, pB4] := by
  refine ⟨rfl, rfl, ?_⟩
  intro h
  have hlen := congrArg List.length h
  rw [show (importProductsFlow genC ([pA4, pB4], 0)
      (exportProductsCsv [pA4, pB4])).1.length = 3 from rfl] at hlen
  cases hlen

def blankRowCsv : String :=
  "id,name,description,price,imageUrl,barcode,quantityType,stock,isVisible\r\n,,,,,,,,"

/-- C9: the import filter never discards any parsed row, because the parser
    unconditionally supplies quantityType (defaulted to unit) and isVisible
    (defaulted to true); in particular a data row whose nine cells are all
    blank is passed to the bulk merge and becomes a default-filled
    "Unnamed Product" instead of being discarded. -/
theorem c9_empty_rows_not_discarded :
    (∀ row : RawRow, keepRow (parseImportRow row) = true) ∧
    ((importProductsFlow genC ([], 0) blankRowCsv).1.map (fun p => p.name)
      = ["Unnamed Product"]) := by
  refine ⟨?_, rfl⟩
  intro row
  simp [keepRow, parseImportRow]
